import Mathlib

/-
Shallow embedding of the `container` package of muzonff/go-crypto-container
(src/container/container.go).

Modelling conventions:
* Go byte slices / byte strings are `List Nat` with the byte invariant `< 256`
  carried as hypotheses where a theorem needs it.
* Go strings that hold text-encoded data (the record fields) are `List Char`.
* The external cryptographic primitives used by the package
  (`crypto/sha256`, `golang.org/x/crypto/pbkdf2`, `crypto/aes` +
  `crypto/cipher.NewCTR`) are not code of this repository; they are
  collaborators.  They are abstracted by the `Crypto` structure: an arbitrary
  digest function, an arbitrary key-derivation function and an arbitrary
  keystream, constrained only by the output-shape facts the Go libraries
  guarantee (32-byte digests and keys, keystream bytes).  A CTR-mode stream
  cipher applied by `XORKeyStream` is exactly "xor the data with a keystream
  determined by (key, iv), starting at stream position 0", which is what
  `xorKeyStreamFrom` implements.
* `encoding/json` marshalling is the collaborator that maps the `Container`
  record to/from text; the embedding works at the record level.  Note that
  Go's `json.Unmarshal` fills absent fields with zero values (empty strings,
  `Iters = 0`), so "a record missing fields" is the record with empty fields.
* Go runtime panics (here: `make([]byte, n)` with negative `n`) are a distinct
  observable outcome, `DecryptResult.panicked`.
-/

namespace GoContainer

/-- The AES block size in bytes, `aes.BlockSize` in the Go source. -/
def aesBlockSize : Nat := 16

/-- The `saltLen` constant of container.go: the salt is 12 random bytes. -/
def saltLen : Nat := 12

/-- The `ivLen` constant of container.go: the IV is 16 random bytes. -/
def ivLen : Nat := 16

/-- The identities of the Go error values that `DecryptContainer` can return:
`encoding/hex.InvalidByteError`, `encoding/hex.ErrLength`
("odd length hex string"), `aes.KeySizeError`, and the package's own
`errors.New` value whose message is the string HMAC mismatch. -/
inductive GoError where
  | hexInvalidByte
  | hexOddLength
  | aesInvalidKeySize
  | hmacMismatch
deriving DecidableEq

instance {ε α : Type} [DecidableEq ε] [DecidableEq α] : DecidableEq (Except ε α) := fun a b =>
  match a, b with
  | .ok x, .ok y => decidable_of_iff (x = y) (by simp)
  | .error e, .error f => decidable_of_iff (e = f) (by simp)
  | .ok _, .error _ => isFalse (by simp)
  | .error _, .ok _ => isFalse (by simp)

/-- The outcome of `DecryptContainer`: Go's `(string, error)` pair together
with the possibility of a runtime panic.  `ok` carries the decrypted bytes;
`err` carries the error identity (Go returns the empty string alongside the
error, so no decrypted bytes accompany an error); `panicked` is the runtime
panic `makeslice: len out of range`. -/
inductive DecryptResult where
  | ok (plaintext : List Nat)
  | err (e : GoError)
  | panicked
deriving DecidableEq

/-- The lowercase hex digit Go's `encoding/hex` writes for a nibble, via its
table "0123456789abcdef": values 0–9 map to characters 48+n, 10–15 to 87+n. -/
def hexDigitChar (n : Nat) : Char :=
  if n < 10 then Char.ofNat (48 + n) else Char.ofNat (87 + n)

/-- Go's `encoding/hex.fromHexChar`: digits, lowercase and uppercase letters
a–f are accepted; everything else is an invalid byte. -/
def fromHexChar (c : Char) : Option Nat :=
  if 48 ≤ c.toNat ∧ c.toNat ≤ 57 then some (c.toNat - 48)
  else if 97 ≤ c.toNat ∧ c.toNat ≤ 102 then some (c.toNat - 97 + 10)
  else if 65 ≤ c.toNat ∧ c.toNat ≤ 70 then some (c.toNat - 65 + 10)
  else none

/-- Go's `encoding/hex.EncodeToString`: each byte `b` becomes the two digits
of `b >> 4` and `b & 0x0f` (on the byte domain `b < 256` the `% 16` below is
exactly `>> 4` and `& 0x0f`). -/
def hexEncode : List Nat → List Char
  | [] => []
  | b :: rest => hexDigitChar (b / 16 % 16) :: hexDigitChar (b % 16) :: hexEncode rest

/-- Go's `encoding/hex.DecodeString`: bytes are decoded two digits at a time;
an invalid character yields `InvalidByteError`, a trailing lone valid digit
yields `ErrLength` (odd length hex string). -/
def hexDecode : List Char → Except GoError (List Nat)
  | [] => .ok []
  | [c] =>
    match fromHexChar c with
    | some _ => .error .hexOddLength
    | none => .error .hexInvalidByte
  | c1 :: c2 :: rest =>
    match fromHexChar c1 with
    | none => .error .hexInvalidByte
    | some hi =>
      match fromHexChar c2 with
      | none => .error .hexInvalidByte
      | some lo =>
        match hexDecode rest with
        | .error e => .error e
        | .ok tail => .ok ((hi * 16 + lo) :: tail)

/-- The repository's `decodeHex` helper, a plain wrapper around
`hex.DecodeString` (it is defined in container.go and exercised by the tests,
though `DecryptContainer` calls `hex.DecodeString` directly). -/
def decodeHex (hexStr : List Char) : Except GoError (List Nat) :=
  hexDecode hexStr

/-- The `Meta` struct of container.go. -/
structure Meta where
  Version : List Char
deriving DecidableEq

/-- The `Derive` struct of container.go.  `Iters` is a Go `int`. -/
structure Derive where
  Salt : List Char
  Iters : Int
deriving DecidableEq

/-- The `Encryption` struct of container.go. -/
structure Encryption where
  IV : List Char
deriving DecidableEq

/-- The `Data` struct of container.go. -/
structure Data where
  EncryptedData : List Char
  HMAC : List Char
deriving DecidableEq

/-- The `Container` struct of container.go: the container record. -/
structure Container where
  ContainerMeta : Meta
  DeriveInfo : Derive
  EncryptionInfo : Encryption
  ContainedData : Data
deriving DecidableEq

/-- The external cryptographic primitives consumed by container.go, abstracted
to exactly the facts the Go libraries guarantee about their shapes:
`sha256` is `sha256.Sum256` (32 bytes of output), `pbkdf2Key` is
`pbkdf2.Key(password, salt, iter, 32, sha256.New)` (32 bytes of output for
every iteration count, including degenerate ones — Go's implementation simply
skips the stretching loop when `iter < 2`), and `keystream key iv` is the CTR
keystream of `cipher.NewCTR(aesCipher(key), iv)` as a byte sequence indexed
from stream position 0. -/
structure Crypto where
  sha256 : List Nat → List Nat
  pbkdf2Key : List Nat → List Nat → Int → List Nat
  keystream : List Nat → List Nat → Nat → Nat
  sha256_length : ∀ m, (sha256 m).length = 32
  sha256_lt : ∀ m, ∀ b ∈ sha256 m, b < 256
  pbkdf2_length : ∀ pw salt it, (pbkdf2Key pw salt it).length = 32
  keystream_lt : ∀ k iv i, keystream k iv i < 256

/-- Go's `cipher.Stream.XORKeyStream(dst, src)` starting at stream position
`off`: `dst[i] = src[i] XOR ks(off + i)`. -/
def xorKeyStreamFrom (ks : Nat → Nat) (off : Nat) : List Nat → List Nat
  | [] => []
  | b :: rest => (b ^^^ ks off) :: xorKeyStreamFrom ks (off + 1) rest

/-- `XORKeyStream` on a freshly created CTR stream (position 0). -/
def xorKeyStream (ks : Nat → Nat) (src : List Nat) : List Nat :=
  xorKeyStreamFrom ks 0 src

/-- Writing `src` into `dst` starting at offset `off`, the effect of Go's
`stream.XORKeyStream(ciphertext[off:], ...)` writing into a sub-slice. -/
def writeAt (dst : List Nat) (off : Nat) (src : List Nat) : List Nat :=
  dst.take off ++ src ++ dst.drop (off + src.length)

/-- The encrypted payload assembled by `CreateContainer`:
`ciphertext := make([]byte, aes.BlockSize+len(plaintext))` (zero-filled by
`make`) and then `stream.XORKeyStream(ciphertext[aes.BlockSize:], plaintext)`.
The randomly drawn `salt` and `iv` and the calibrated `iterCount` are
explicit inputs here (in Go they come from `generateRandomBytes` and
`generateRandomNumber` inside the call). -/
def sealCiphertext (C : Crypto) (plaintext password salt iv : List Nat) (iterCount : Int) : List Nat :=
  writeAt (List.replicate (aesBlockSize + plaintext.length) 0) aesBlockSize
    (xorKeyStream (C.keystream (C.pbkdf2Key password salt iterCount) iv) plaintext)

/-- The record a successful `CreateContainer` assembles: version tag "v1.0",
hex-encoded salt, the iteration count, hex-encoded IV, hex-encoded payload and
the hex-encoded SHA-256 digest of the plaintext (the field Go names `HMAC`). -/
def sealContainer (C : Crypto) (plaintext password salt iv : List Nat) (iterCount : Int) : Container :=
  { ContainerMeta := { Version := ['v', '1', '.', '0'] }
    DeriveInfo := { Salt := hexEncode salt, Iters := iterCount }
    EncryptionInfo := { IV := hexEncode iv }
    ContainedData :=
      { EncryptedData := hexEncode (sealCiphertext C plaintext password salt iv iterCount)
        HMAC := hexEncode (C.sha256 plaintext) } }

/-- `CreateContainer` of container.go, at the record level (the final
`json.Marshal` is the serialisation collaborator).  The random salt (12
bytes), the calibrated iteration count and the random IV (16 bytes) are taken
as inputs, standing for the values `generateRandomBytes` and
`generateRandomNumber` produce inside the Go function; a `rand.Read` failure
aborts the Go function before anything else happens and is therefore outside
this model.  The only remaining failure path is `aes.NewCipher`, which errors
unless the derived key has 16, 24 or 32 bytes. -/
def CreateContainer (C : Crypto) (plaintext password salt iv : List Nat) (iterCount : Int) : Option Container :=
  let dk := C.pbkdf2Key password salt iterCount
  if dk.length = 16 ∨ dk.length = 24 ∨ dk.length = 32 then
    some (sealContainer C plaintext password salt iv iterCount)
  else
    none

/-- `DecryptContainer` of container.go, at the record level (the initial
`json.Unmarshal` is the parsing collaborator).  Step for step as in the
source: hex-decode `Salt`, then `EncryptedData`, then `IV`, returning the
decode error immediately; derive the key with the stored `Iters`;
`aes.NewCipher` (errors on a bad key size); then
`make([]byte, len(encrypted)-aes.BlockSize)`, which panics at runtime when
`len(encrypted) < aes.BlockSize` because `make` receives a negative length;
then CTR-decrypt `encrypted[aes.BlockSize:]`; finally compare the hex-encoded
SHA-256 of the decrypted bytes against the stored `HMAC` field, returning the
bytes on a match and the mismatch error otherwise. -/
def DecryptContainer (C : Crypto) (c : Container) (password : List Nat) : DecryptResult :=
  match hexDecode c.DeriveInfo.Salt with
  | .error e => .err e
  | .ok salt =>
    match hexDecode c.ContainedData.EncryptedData with
    | .error e => .err e
    | .ok encrypted =>
      match hexDecode c.EncryptionInfo.IV with
      | .error e => .err e
      | .ok iv =>
        let dk := C.pbkdf2Key password salt c.DeriveInfo.Iters
        if dk.length = 16 ∨ dk.length = 24 ∨ dk.length = 32 then
          if encrypted.length < aesBlockSize then
            .panicked
          else
            let plaintext := xorKeyStream (C.keystream dk iv) (encrypted.drop aesBlockSize)
            if hexEncode (C.sha256 plaintext) = c.ContainedData.HMAC then
              .ok plaintext
            else
              .err .hmacMismatch
        else
          .err .aesInvalidKeySize

/-- `generateRandomNumber` of container.go.  `elapsed` is the nanosecond
duration the `workload` benchmark measured (non-negative, since `time.Since`
uses the monotonic clock) and `rng n` stands for the value
`mathrnd.New(source).Intn n` returns, which lies in `[0, n)`; the reduction
`% (elapsed + 1)` records that range.  `Intn` is called with
`elapsed + 1 ≥ 1 > 0`, so its panic path is unreachable and the function
cannot fail.  Draws below 4096 are clamped to 4096. -/
def generateRandomNumber (elapsed : Nat) (rng : Nat → Nat) : Nat :=
  let randomNumber := rng (elapsed + 1) % (elapsed + 1)
  if randomNumber < 4096 then 4096 else randomNumber

/-- A lowercase hexadecimal digit character, the only characters
`hex.EncodeToString` emits. -/
def isLowerHexDigit (c : Char) : Prop :=
  (48 ≤ c.toNat ∧ c.toNat ≤ 57) ∨ (97 ≤ c.toNat ∧ c.toNat ≤ 102)

instance (c : Char) : Decidable (isLowerHexDigit c) := by
  unfold isLowerHexDigit
  infer_instance

/-- A field value on which `hex.DecodeString` fails: it contains a character
that is not a hexadecimal digit, or it has odd length. -/
def badHexField (s : List Char) : Prop :=
  (∃ c ∈ s, fromHexChar c = none) ∨ s.length % 2 = 1

instance (s : List Char) : Decidable (badHexField s) := by
  unfold badHexField
  infer_instance

/-- Replacing the `EncryptedData` field of a record with the hex encoding of
a given payload, as the tamper-detection scenarios do. -/
def tamperEnc (c : Container) (payload : List Nat) : Container :=
  { c with ContainedData := { EncryptedData := hexEncode payload, HMAC := c.ContainedData.HMAC } }

/-- Replacing the stored digest (`HMAC` field) of a record. -/
def tamperHMAC (c : Container) (digest : List Char) : Container :=
  { c with ContainedData := { EncryptedData := c.ContainedData.EncryptedData, HMAC := digest } }

theorem fromHexChar_hexDigitChar (n : Nat) (h : n < 16) :
    fromHexChar (hexDigitChar n) = some n := by
  interval_cases n <;> decide

theorem isLowerHexDigit_hexDigitChar (n : Nat) (h : n < 16) :
    isLowerHexDigit (hexDigitChar n) := by
  interval_cases n <;> decide

theorem hexEncode_length (bs : List Nat) : (hexEncode bs).length = 2 * bs.length := by
  induction bs with
  | nil => rfl
  | cons b rest ih =>
    simp only [hexEncode, List.length_cons, ih]
    omega

theorem mem_hexEncode (bs : List Nat) (c : Char) (hc : c ∈ hexEncode bs) :
    isLowerHexDigit c := by
  induction bs with
  | nil => simp [hexEncode] at hc
  | cons b rest ih =>
    simp only [hexEncode, List.mem_cons] at hc
    rcases hc with rfl | rfl | h
    · exact isLowerHexDigit_hexDigitChar _ (Nat.mod_lt _ (by norm_num))
    · exact isLowerHexDigit_hexDigitChar _ (Nat.mod_lt _ (by norm_num))
    · exact ih h

theorem hexDecode_hexEncode (bs : List Nat) (h : ∀ b ∈ bs, b < 256) :
    hexDecode (hexEncode bs) = .ok bs := by
  induction bs with
  | nil => rfl
  | cons b rest ih =>
    have hb : b < 256 := h b (List.mem_cons_self _ _)
    have h1 : fromHexChar (hexDigitChar (b / 16 % 16)) = some (b / 16 % 16) :=
      fromHexChar_hexDigitChar _ (Nat.mod_lt _ (by norm_num))
    have h2 : fromHexChar (hexDigitChar (b % 16)) = some (b % 16) :=
      fromHexChar_hexDigitChar _ (Nat.mod_lt _ (by norm_num))
    have ih' := ih (fun x hx => h x (List.mem_cons_of_mem _ hx))
    have hval : b / 16 % 16 * 16 + b % 16 = b := by omega
    simp [hexEncode, hexDecode, h1, h2, ih', hval]

theorem hexEncode_inj (a b : List Nat) (ha : ∀ x ∈ a, x < 256) (hb : ∀ x ∈ b, x < 256)
    (h : hexEncode a = hexEncode b) : a = b := by
  have t1 := hexDecode_hexEncode a ha
  rw [h, hexDecode_hexEncode b hb] at t1
  exact (Except.ok.inj t1).symm

theorem hexDecode_error_shape : ∀ (s : List Char) (e : GoError),
    hexDecode s = .error e → e = .hexInvalidByte ∨ e = .hexOddLength
  | [], e => by simp [hexDecode]
  | [c], e => by
    cases h : fromHexChar c <;> simp [hexDecode, h] <;> rintro rfl <;> simp
  | c1 :: c2 :: rest, e => by
    cases h1 : fromHexChar c1 with
    | none =>
      simp only [hexDecode, h1]
      rintro h
      cases h
      simp
    | some hi =>
      cases h2 : fromHexChar c2 with
      | none =>
        simp only [hexDecode, h1, h2]
        rintro h
        cases h
        simp
      | some lo =>
        cases h3 : hexDecode rest with
        | error e' =>
          have hshape := hexDecode_error_shape rest e' h3
          simp only [hexDecode, h1, h2, h3]
          rintro h
          cases h
          exact hshape
        | ok tail =>
          simp [hexDecode, h1, h2, h3]

theorem hexDecode_ok_not_bad : ∀ (s : List Char) (bs : List Nat),
    hexDecode s = .ok bs → ¬ badHexField s
  | [], bs => by
    intro _ hbad
    rcases hbad with ⟨c, hc, _⟩ | h
    · simp at hc
    · simp at h
  | [c], bs => by
    intro hok
    cases h : fromHexChar c <;> simp [hexDecode, h] at hok
  | c1 :: c2 :: rest, bs => by
    intro hok hbad
    cases h1 : fromHexChar c1 with
    | none => simp [hexDecode, h1] at hok
    | some hi =>
      cases h2 : fromHexChar c2 with
      | none => simp [hexDecode, h1, h2] at hok
      | some lo =>
        cases h3 : hexDecode rest with
        | error e' => simp [hexDecode, h1, h2, h3] at hok
        | ok tail =>
          have hrest := hexDecode_ok_not_bad rest tail h3
          rcases hbad with ⟨c, hc, hnone⟩ | hodd
          · rcases List.mem_cons.mp hc with rfl | hc2
            · rw [h1] at hnone; cases hnone
            · rcases List.mem_cons.mp hc2 with rfl | hc3
              · rw [h2] at hnone; cases hnone
              · exact hrest (Or.inl ⟨c, hc3, hnone⟩)
          · apply hrest
            right
            simp only [List.length_cons] at hodd
            omega

theorem xorKeyStreamFrom_length (ks : Nat → Nat) (off : Nat) (l : List Nat) :
    (xorKeyStreamFrom ks off l).length = l.length := by
  induction l generalizing off with
  | nil => rfl
  | cons b rest ih => simp [xorKeyStreamFrom, ih]

theorem xorKeyStreamFrom_invol (ks : Nat → Nat) (off : Nat) (l : List Nat) :
    xorKeyStreamFrom ks off (xorKeyStreamFrom ks off l) = l := by
  induction l generalizing off with
  | nil => rfl
  | cons b rest ih => simp [xorKeyStreamFrom, ih, Nat.xor_cancel_right]

theorem xorKeyStreamFrom_getElem? (ks : Nat → Nat) (off : Nat) (l : List Nat) (i : Nat) :
    (xorKeyStreamFrom ks off l)[i]? = (l[i]?).map (fun b => b ^^^ ks (off + i)) := by
  induction l generalizing off i with
  | nil => simp [xorKeyStreamFrom]
  | cons b rest ih =>
    cases i with
    | zero => simp [xorKeyStreamFrom]
    | succ n =>
      have harith : off + 1 + n = off + (n + 1) := by omega
      simp only [xorKeyStreamFrom, List.getElem?_cons_succ, ih, harith]

theorem xorKeyStreamFrom_set (ks : Nat → Nat) (off : Nat) (l : List Nat) (j b : Nat) :
    xorKeyStreamFrom ks off (l.set j b) =
      (xorKeyStreamFrom ks off l).set j (b ^^^ ks (off + j)) := by
  induction l generalizing off j with
  | nil => simp [xorKeyStreamFrom]
  | cons x rest ih =>
    cases j with
    | zero => simp [xorKeyStreamFrom]
    | succ n =>
      have harith : off + 1 + n = off + (n + 1) := by omega
      simp [xorKeyStreamFrom, List.set_cons_succ, ih, harith]

theorem xorKeyStreamFrom_mem_lt (ks : Nat → Nat) (hks : ∀ i, ks i < 256) (off : Nat)
    (l : List Nat) (hl : ∀ b ∈ l, b < 256) : ∀ b ∈ xorKeyStreamFrom ks off l, b < 256 := by
  induction l generalizing off with
  | nil => simp [xorKeyStreamFrom]
  | cons x rest ih =>
    intro b hb
    simp only [xorKeyStreamFrom, List.mem_cons] at hb
    rcases hb with rfl | hb
    · have hx : x < 256 := hl x (List.mem_cons_self _ _)
      have h256 : (256 : Nat) = 2 ^ 8 := by norm_num
      rw [h256] at hx ⊢
      exact Nat.xor_lt_two_pow hx (by rw [← h256]; exact hks off)
    · exact ih (off + 1) (fun y hy => hl y (List.mem_cons_of_mem _ hy)) b hb

theorem xorKeyStream_invol (ks : Nat → Nat) (l : List Nat) :
    xorKeyStream ks (xorKeyStream ks l) = l :=
  xorKeyStreamFrom_invol ks 0 l

theorem sealCiphertext_eq (C : Crypto) (p pw salt iv : List Nat) (it : Int) :
    sealCiphertext C p pw salt iv it =
      List.replicate aesBlockSize 0 ++
        xorKeyStream (C.keystream (C.pbkdf2Key pw salt it) iv) p := by
  unfold sealCiphertext writeAt
  rw [xorKeyStream, xorKeyStreamFrom_length, List.take_replicate, List.drop_replicate]
  have h1 : aesBlockSize ⊓ (aesBlockSize + p.length) = aesBlockSize := by omega
  have h2 : aesBlockSize + p.length - (aesBlockSize + p.length) = 0 := by omega
  simp [h1, h2, xorKeyStream]

theorem sealCiphertext_length (C : Crypto) (p pw salt iv : List Nat) (it : Int) :
    (sealCiphertext C p pw salt iv it).length = aesBlockSize + p.length := by
  rw [sealCiphertext_eq]
  simp [xorKeyStream, xorKeyStreamFrom_length]

theorem sealCiphertext_mem_lt (C : Crypto) (p pw salt iv : List Nat) (it : Int)
    (hp : ∀ b ∈ p, b < 256) : ∀ b ∈ sealCiphertext C p pw salt iv it, b < 256 := by
  rw [sealCiphertext_eq]
  intro b hb
  rcases List.mem_append.mp hb with h | h
  · have := List.eq_of_mem_replicate h
    omega
  · exact xorKeyStreamFrom_mem_lt _ (fun i => C.keystream_lt _ _ i) 0 p hp b h

theorem createContainer_eq_some (C : Crypto) (p pw salt iv : List Nat) (it : Int) :
    CreateContainer C p pw salt iv it = some (sealContainer C p pw salt iv it) := by
  unfold CreateContainer
  simp [C.pbkdf2_length]

theorem decryptContainer_eq_digestCheck (C : Crypto) (c : Container) (pw salt enc iv : List Nat)
    (hs : hexDecode c.DeriveInfo.Salt = .ok salt)
    (he : hexDecode c.ContainedData.EncryptedData = .ok enc)
    (hv : hexDecode c.EncryptionInfo.IV = .ok iv)
    (hlen : aesBlockSize ≤ enc.length) :
    DecryptContainer C c pw =
      if hexEncode (C.sha256 (xorKeyStream (C.keystream (C.pbkdf2Key pw salt c.DeriveInfo.Iters) iv)
            (enc.drop aesBlockSize))) = c.ContainedData.HMAC
      then .ok (xorKeyStream (C.keystream (C.pbkdf2Key pw salt c.DeriveInfo.Iters) iv)
            (enc.drop aesBlockSize))
      else .err .hmacMismatch := by
  unfold DecryptContainer
  rw [hs, he, hv]
  simp [C.pbkdf2_length, Nat.not_lt.mpr hlen]

theorem decryptContainer_panicks (C : Crypto) (c : Container) (pw salt enc iv : List Nat)
    (hs : hexDecode c.DeriveInfo.Salt = .ok salt)
    (he : hexDecode c.ContainedData.EncryptedData = .ok enc)
    (hv : hexDecode c.EncryptionInfo.IV = .ok iv)
    (hlen : enc.length < aesBlockSize) :
    DecryptContainer C c pw = .panicked := by
  unfold DecryptContainer
  rw [hs, he, hv]
  simp [C.pbkdf2_length, hlen]

theorem sealCiphertext_drop (C : Crypto) (p pw salt iv : List Nat) (it : Int) :
    (sealCiphertext C p pw salt iv it).drop aesBlockSize =
      xorKeyStream (C.keystream (C.pbkdf2Key pw salt it) iv) p := by
  rw [sealCiphertext_eq]
  have h : aesBlockSize = (List.replicate aesBlockSize (0 : Nat)).length := by simp
  nth_rewrite 1 [h]
  rw [List.drop_left]

theorem decrypt_sealContainer (C : Crypto) (p pw salt iv : List Nat) (it : Int)
    (hp : ∀ b ∈ p, b < 256) (hsalt : ∀ b ∈ salt, b < 256) (hiv : ∀ b ∈ iv, b < 256) :
    DecryptContainer C (sealContainer C p pw salt iv it) pw = .ok p := by
  have hct := sealCiphertext_mem_lt C p pw salt iv it hp
  have hs : hexDecode (sealContainer C p pw salt iv it).DeriveInfo.Salt = .ok salt :=
    hexDecode_hexEncode salt hsalt
  have he : hexDecode (sealContainer C p pw salt iv it).ContainedData.EncryptedData =
      .ok (sealCiphertext C p pw salt iv it) := hexDecode_hexEncode _ hct
  have hv : hexDecode (sealContainer C p pw salt iv it).EncryptionInfo.IV = .ok iv :=
    hexDecode_hexEncode iv hiv
  have hlen : aesBlockSize ≤ (sealCiphertext C p pw salt iv it).length := by
    rw [sealCiphertext_length]
    omega
  rw [decryptContainer_eq_digestCheck C _ pw salt _ iv hs he hv hlen]
  have hIters : (sealContainer C p pw salt iv it).DeriveInfo.Iters = it := rfl
  rw [hIters, sealCiphertext_drop, xorKeyStream_invol]
  have hhmac : (sealContainer C p pw salt iv it).ContainedData.HMAC =
      hexEncode (C.sha256 p) := rfl
  rw [hhmac, if_pos rfl]

/-- A concrete executable digest stand-in used to instantiate `Crypto` on
concrete inputs: the (byte-reduced) message padded with sevens, truncated to
32 bytes.  Collision-free on the short distinct inputs the instances use. -/
def sha256Test (m : List Nat) : List Nat :=
  (m.map (fun b => b % 256) ++ List.replicate 32 7).take 32

/-- A concrete executable key-derivation stand-in: 32 equal bytes determined
by password, salt and iteration count. -/
def pbkdf2Test (pw salt : List Nat) (it : Int) : List Nat :=
  List.replicate 32 ((pw.sum + salt.sum + it.natAbs) % 251)

/-- A concrete executable keystream stand-in determined by key and IV. -/
def keystreamTest (k iv : List Nat) (i : Nat) : Nat :=
  (k.sum + iv.sum + 3 * i + 1) % 256

theorem sha256Test_length (m : List Nat) : (sha256Test m).length = 32 := by
  simp [sha256Test]

theorem sha256Test_lt (m : List Nat) : ∀ b ∈ sha256Test m, b < 256 := by
  intro b hb
  have hb' := List.mem_of_mem_take hb
  rcases List.mem_append.mp hb' with h | h
  · obtain ⟨x, _, rfl⟩ := List.mem_map.mp h
    exact Nat.mod_lt _ (by norm_num)
  · have := List.eq_of_mem_replicate h
    omega

/-- The concrete `Crypto` instance used for evaluating the pipeline on
explicit inputs. -/
def cryptoTest : Crypto where
  sha256 := sha256Test
  pbkdf2Key := pbkdf2Test
  keystream := keystreamTest
  sha256_length := sha256Test_length
  sha256_lt := sha256Test_lt
  pbkdf2_length := by intro pw salt it; simp [pbkdf2Test]
  keystream_lt := by intro k iv i; exact Nat.mod_lt _ (by norm_num)

/-- Concrete plaintext bytes, the string "hi". -/
def pTest : List Nat := [104, 105]

/-- Concrete password bytes, the string "pw". -/
def pwTest : List Nat := [112, 119]

/-- A concrete 12-byte salt, as `generateRandomBytes saltLen` returns. -/
def saltTest : List Nat := [0, 1, 2, 3, 4, 5, 6, 7, 8, 9, 10, 11]

/-- A concrete 16-byte IV, as `generateRandomBytes ivLen` returns. -/
def ivTest : List Nat := [10, 11, 12, 13, 14, 15, 16, 17, 18, 19, 20, 21, 22, 23, 24, 25]

/-- The `Container` zero value: exactly what Go's `json.Unmarshal` produces
for a record from which the fields are missing (absent fields are filled with
zero values — empty strings and a zero iteration count). -/
def emptyContainer : Container :=
  { ContainerMeta := { Version := [] }
    DeriveInfo := { Salt := [], Iters := 0 }
    EncryptionInfo := { IV := [] }
    ContainedData := { EncryptedData := [], HMAC := [] } }

/-- A structurally parseable record whose `Salt` holds non-hexadecimal
characters. -/
def badSaltContainer : Container :=
  { emptyContainer with DeriveInfo := { Salt := ['z', 'z'], Iters := 0 } }

/-- A well-formed record (all fields present, one-byte payload "00") whose
encrypted payload decodes to a single byte, shorter than the AES block
size. -/
def shortPayloadContainer : Container :=
  { ContainerMeta := { Version := ['v', '1', '.', '0'] }
    DeriveInfo := { Salt := hexEncode saltTest, Iters := 1000 }
    EncryptionInfo := { IV := hexEncode ivTest }
    ContainedData := { EncryptedData := ['0', '0'], HMAC := [] } }

/-- C1: for every plaintext and password (and every salt, IV and iteration
count that the random sources can produce — all byte sequences), if
`CreateContainer` succeeds and returns record `r`, then `DecryptContainer`
on `r` with the same password succeeds and returns exactly the plaintext. -/
theorem seal_open_roundTrip (C : Crypto) (p pw salt iv : List Nat) (it : Int)
    (hp : ∀ b ∈ p, b < 256) (hsalt : ∀ b ∈ salt, b < 256) (hiv : ∀ b ∈ iv, b < 256) :
    ∃ r, CreateContainer C p pw salt iv it = some r ∧
      DecryptContainer C r pw = .ok p :=
  ⟨sealContainer C p pw salt iv it, createContainer_eq_some C p pw salt iv it,
    decrypt_sealContainer C p pw salt iv it hp hsalt hiv⟩

theorem seal_open_roundTrip_witness :
    (∀ b ∈ pTest, b < 256) ∧
    ∃ r, CreateContainer cryptoTest pTest pwTest saltTest ivTest 4096 = some r ∧
      DecryptContainer cryptoTest r pwTest = .ok pTest :=
  ⟨by decide,
    seal_open_roundTrip cryptoTest pTest pwTest saltTest ivTest 4096
      (by decide) (by decide) (by decide)⟩

/-- C2 (counterexample): a record produced by a successful seal in which a
byte of the encrypted payload inside the leading block-size prefix is flipped
(position 0: byte 0 becomes 1) is opened SUCCESSFULLY — the prefix is never
passed through the cipher stream, so the flip does not reach the digest
comparison and no IntegrityMismatch error occurs. -/
theorem prefix_flip_not_detected :
    CreateContainer cryptoTest pTest pwTest saltTest ivTest 4096 =
      some (sealContainer cryptoTest pTest pwTest saltTest ivTest 4096) ∧
    (sealCiphertext cryptoTest pTest pwTest saltTest ivTest 4096).get? 0 = some 0 ∧
    DecryptContainer cryptoTest
        (tamperEnc (sealContainer cryptoTest pTest pwTest saltTest ivTest 4096)
          ((sealCiphertext cryptoTest pTest pwTest saltTest ivTest 4096).set 0 1))
        pwTest = .ok pTest := by
  exact ⟨by decide, by decide, by decide⟩

/-- C2 (amended): for every record produced by a successful seal, replacing a
byte of the encrypted payload at a position at or beyond the block-size
prefix (positions `[blockSize, blockSize+len(plaintext))`) causes open to
fail with the HMAC-mismatch error, provided the digest function separates the
resulting altered plaintext from the original (true of SHA-256 short of an
explicit collision); and replacing the stored digest with any different
string likewise causes the HMAC-mismatch error.  Flips inside the leading
block-size prefix are NOT detected (see the counterexample). -/
theorem tamper_detection (C : Crypto) (p pw salt iv : List Nat) (it : Int)
    (hp : ∀ b ∈ p, b < 256) (hsalt : ∀ b ∈ salt, b < 256) (hiv : ∀ b ∈ iv, b < 256)
    (i : Nat) (hi : aesBlockSize ≤ i) (hilt : i < aesBlockSize + p.length)
    (b' : Nat) (hb' : b' < 256)
    (hcoll : C.sha256 (p.set (i - aesBlockSize)
        (b' ^^^ C.keystream (C.pbkdf2Key pw salt it) iv (i - aesBlockSize))) ≠ C.sha256 p)
    (h' : List Char) (hh' : h' ≠ hexEncode (C.sha256 p)) :
    DecryptContainer C
        (tamperEnc (sealContainer C p pw salt iv it)
          ((sealCiphertext C p pw salt iv it).set i b')) pw = .err .hmacMismatch ∧
    DecryptContainer C (tamperHMAC (sealContainer C p pw salt iv it) h') pw =
      .err .hmacMismatch := by
  constructor
  · have hct : ∀ b ∈ (sealCiphertext C p pw salt iv it).set i b', b < 256 := by
      intro b hb
      rcases List.mem_or_eq_of_mem_set hb with h | rfl
      · exact sealCiphertext_mem_lt C p pw salt iv it hp b h
      · exact hb'
    have hs : hexDecode (tamperEnc (sealContainer C p pw salt iv it)
        ((sealCiphertext C p pw salt iv it).set i b')).DeriveInfo.Salt = .ok salt :=
      hexDecode_hexEncode salt hsalt
    have he : hexDecode (tamperEnc (sealContainer C p pw salt iv it)
        ((sealCiphertext C p pw salt iv it).set i b')).ContainedData.EncryptedData =
        .ok ((sealCiphertext C p pw salt iv it).set i b') :=
      hexDecode_hexEncode _ hct
    have hv : hexDecode (tamperEnc (sealContainer C p pw salt iv it)
        ((sealCiphertext C p pw salt iv it).set i b')).EncryptionInfo.IV = .ok iv :=
      hexDecode_hexEncode iv hiv
    have hlen : aesBlockSize ≤ ((sealCiphertext C p pw salt iv it).set i b').length := by
      rw [List.length_set, sealCiphertext_length]
      omega
    rw [decryptContainer_eq_digestCheck C _ pw salt _ iv hs he hv hlen]
    have hIt : (tamperEnc (sealContainer C p pw salt iv it)
        ((sealCiphertext C p pw salt iv it).set i b')).DeriveInfo.Iters = it := rfl
    have hH : (tamperEnc (sealContainer C p pw salt iv it)
        ((sealCiphertext C p pw salt iv it).set i b')).ContainedData.HMAC =
        hexEncode (C.sha256 p) := rfl
    have hdrop : ((sealCiphertext C p pw salt iv it).set i b').drop aesBlockSize =
        (xorKeyStream (C.keystream (C.pbkdf2Key pw salt it) iv) p).set (i - aesBlockSize) b' := by
      rw [List.drop_set, if_neg (by omega), sealCiphertext_drop]
    have hxor : xorKeyStream (C.keystream (C.pbkdf2Key pw salt it) iv)
        ((xorKeyStream (C.keystream (C.pbkdf2Key pw salt it) iv) p).set (i - aesBlockSize) b') =
        p.set (i - aesBlockSize)
          (b' ^^^ C.keystream (C.pbkdf2Key pw salt it) iv (i - aesBlockSize)) := by
      rw [xorKeyStream, xorKeyStreamFrom_set, ← xorKeyStream, xorKeyStream_invol, Nat.zero_add]
    rw [hIt, hH, hdrop, hxor]
    have hne : hexEncode (C.sha256 (p.set (i - aesBlockSize)
        (b' ^^^ C.keystream (C.pbkdf2Key pw salt it) iv (i - aesBlockSize)))) ≠
        hexEncode (C.sha256 p) := by
      intro heq
      exact hcoll (hexEncode_inj _ _ (C.sha256_lt _) (C.sha256_lt _) heq)
    rw [if_neg hne]
  · have hct : ∀ b ∈ sealCiphertext C p pw salt iv it, b < 256 :=
      sealCiphertext_mem_lt C p pw salt iv it hp
    have hs : hexDecode (tamperHMAC (sealContainer C p pw salt iv it) h').DeriveInfo.Salt =
        .ok salt := hexDecode_hexEncode salt hsalt
    have he : hexDecode (tamperHMAC (sealContainer C p pw salt iv it)
        h').ContainedData.EncryptedData = .ok (sealCiphertext C p pw salt iv it) :=
      hexDecode_hexEncode _ hct
    have hv : hexDecode (tamperHMAC (sealContainer C p pw salt iv it) h').EncryptionInfo.IV =
        .ok iv := hexDecode_hexEncode iv hiv
    have hlen : aesBlockSize ≤ (sealCiphertext C p pw salt iv it).length := by
      rw [sealCiphertext_length]
      omega
    rw [decryptContainer_eq_digestCheck C _ pw salt _ iv hs he hv hlen]
    have hIt : (tamperHMAC (sealContainer C p pw salt iv it) h').DeriveInfo.Iters = it := rfl
    have hH : (tamperHMAC (sealContainer C p pw salt iv it) h').ContainedData.HMAC = h' := rfl
    rw [hIt, hH, sealCiphertext_drop, xorKeyStream_invol]
    exact if_neg (fun heq => hh' heq.symm)

theorem tamper_detection_witness :
    (cryptoTest.sha256 (pTest.set (16 - aesBlockSize)
        (0 ^^^ cryptoTest.keystream (cryptoTest.pbkdf2Key pwTest saltTest 4096) ivTest
          (16 - aesBlockSize))) ≠ cryptoTest.sha256 pTest) ∧
    DecryptContainer cryptoTest
        (tamperEnc (sealContainer cryptoTest pTest pwTest saltTest ivTest 4096)
          ((sealCiphertext cryptoTest pTest pwTest saltTest ivTest 4096).set 16 0))
        pwTest = .err .hmacMismatch ∧
    DecryptContainer cryptoTest
        (tamperHMAC (sealContainer cryptoTest pTest pwTest saltTest ivTest 4096) ['z'])
        pwTest = .err .hmacMismatch :=
  ⟨by decide,
    tamper_detection cryptoTest pTest pwTest saltTest ivTest 4096
      (by decide) (by decide) (by decide) 16 (by decide) (by decide) 0 (by decide)
      (by decide) ['z'] (by decide)⟩

/-- C3: a record whose `EncryptedData` decodes to fewer than `aes.BlockSize`
bytes does NOT get a malformed-record error from `DecryptContainer`: the Go
code reaches `make([]byte, len(encrypted)-aes.BlockSize)` with a negative
length and panics at runtime (`makeslice: len out of range`), and it does so
only after key derivation and cipher initialisation have already run.  The
all-zero-value record that `json.Unmarshal` produces for a record missing its
fields takes the same path (empty payload).  This theorem evaluates the code
on that class of inputs. -/
theorem short_payload_panics (C : Crypto) (c : Container) (pw salt enc iv : List Nat)
    (hs : hexDecode c.DeriveInfo.Salt = .ok salt)
    (he : hexDecode c.ContainedData.EncryptedData = .ok enc)
    (hv : hexDecode c.EncryptionInfo.IV = .ok iv)
    (hlen : enc.length < aesBlockSize) :
    DecryptContainer C c pw = .panicked :=
  decryptContainer_panicks C c pw salt enc iv hs he hv hlen

theorem short_payload_panics_witness :
    DecryptContainer cryptoTest emptyContainer [] = .panicked ∧
    DecryptContainer cryptoTest shortPayloadContainer pwTest = .panicked :=
  ⟨short_payload_panics cryptoTest emptyContainer [] [] [] []
      (by decide) (by decide) (by decide) (by decide),
    short_payload_panics cryptoTest shortPayloadContainer pwTest saltTest [0] ivTest
      (by decide) (by decide) (by decide) (by decide)⟩

/-- C4 (counterexample): a record whose iteration count is zero is NOT
rejected by `DecryptContainer` as malformed metadata: key derivation runs
with iteration count 0 and, on this record (a seal performed with iteration
count 0), open even succeeds and returns the plaintext. -/
theorem iters_zero_not_rejected :
    (sealContainer cryptoTest pTest pwTest saltTest ivTest 0).DeriveInfo.Iters = 0 ∧
    DecryptContainer cryptoTest (sealContainer cryptoTest pTest pwTest saltTest ivTest 0)
      pwTest = .ok pTest :=
  ⟨rfl, by decide⟩

/-- C4 (amended): `DecryptContainer` performs no validation of the stored
iteration count.  A structurally well-formed record with `Iters = 0` is
processed exactly like any other: the key is derived with iteration count 0
and the outcome is decided by the digest comparison alone — the result is
either the decrypted bytes or the HMAC-mismatch error, never a
malformed-metadata rejection. -/
theorem iters_zero_reaches_digest (C : Crypto) (c : Container) (pw salt enc iv : List Nat)
    (hiters : c.DeriveInfo.Iters = 0)
    (hs : hexDecode c.DeriveInfo.Salt = .ok salt)
    (he : hexDecode c.ContainedData.EncryptedData = .ok enc)
    (hv : hexDecode c.EncryptionInfo.IV = .ok iv)
    (hlen : aesBlockSize ≤ enc.length) :
    DecryptContainer C c pw =
      .ok (xorKeyStream (C.keystream (C.pbkdf2Key pw salt 0) iv) (enc.drop aesBlockSize)) ∨
    DecryptContainer C c pw = .err .hmacMismatch := by
  rw [decryptContainer_eq_digestCheck C c pw salt enc iv hs he hv hlen, hiters]
  by_cases hd : hexEncode (C.sha256 (xorKeyStream (C.keystream (C.pbkdf2Key pw salt 0) iv)
      (enc.drop aesBlockSize))) = c.ContainedData.HMAC
  · left
    rw [if_pos hd]
  · right
    rw [if_neg hd]

theorem iters_zero_reaches_digest_witness :
    ((sealContainer cryptoTest pTest pwTest saltTest ivTest 0).DeriveInfo.Iters = 0) ∧
    (DecryptContainer cryptoTest (sealContainer cryptoTest pTest pwTest saltTest ivTest 0)
        pwTest =
      .ok (xorKeyStream
        (cryptoTest.keystream (cryptoTest.pbkdf2Key pwTest saltTest 0) ivTest)
        ((sealCiphertext cryptoTest pTest pwTest saltTest ivTest 0).drop aesBlockSize)) ∨
    DecryptContainer cryptoTest (sealContainer cryptoTest pTest pwTest saltTest ivTest 0)
        pwTest = .err .hmacMismatch) :=
  ⟨by decide,
    iters_zero_reaches_digest cryptoTest
      (sealContainer cryptoTest pTest pwTest saltTest ivTest 0) pwTest saltTest
      (sealCiphertext cryptoTest pTest pwTest saltTest ivTest 0) ivTest
      (by decide) (by decide) (by decide) (by decide) (by decide)⟩

/-- C5: on every record in which `Salt`, `EncryptedData` or `IV` contains a
non-hexadecimal character or has odd length, `DecryptContainer` returns a
hex-decode error (invalid byte or odd length — never a panic), and it does so
before any cryptographic work: the result is the same for every choice of
cryptographic primitives and of password. -/
theorem bad_hex_decode_error (C : Crypto) (c : Container) (pw : List Nat)
    (h : badHexField c.DeriveInfo.Salt ∨ badHexField c.ContainedData.EncryptedData ∨
      badHexField c.EncryptionInfo.IV) :
    ∃ e, (e = GoError.hexInvalidByte ∨ e = GoError.hexOddLength) ∧
      ∀ (C' : Crypto) (pw' : List Nat), DecryptContainer C' c pw' = .err e := by
  cases hs : hexDecode c.DeriveInfo.Salt with
  | error e =>
    refine ⟨e, hexDecode_error_shape _ e hs, fun C' pw' => ?_⟩
    unfold DecryptContainer
    rw [hs]
  | ok salt =>
    cases he : hexDecode c.ContainedData.EncryptedData with
    | error e =>
      refine ⟨e, hexDecode_error_shape _ e he, fun C' pw' => ?_⟩
      unfold DecryptContainer
      rw [hs, he]
    | ok enc =>
      cases hv : hexDecode c.EncryptionInfo.IV with
      | error e =>
        refine ⟨e, hexDecode_error_shape _ e hv, fun C' pw' => ?_⟩
        unfold DecryptContainer
        rw [hs, he, hv]
      | ok iv =>
        exfalso
        rcases h with h | h | h
        · exact hexDecode_ok_not_bad _ salt hs h
        · exact hexDecode_ok_not_bad _ enc he h
        · exact hexDecode_ok_not_bad _ iv hv h

theorem bad_hex_decode_error_witness :
    badHexField badSaltContainer.DeriveInfo.Salt ∧
    DecryptContainer cryptoTest badSaltContainer pwTest = .err .hexInvalidByte ∧
    ∃ e, (e = GoError.hexInvalidByte ∨ e = GoError.hexOddLength) ∧
      ∀ (C' : Crypto) (pw' : List Nat), DecryptContainer C' badSaltContainer pw' = .err e :=
  ⟨by decide, by decide,
    bad_hex_decode_error cryptoTest badSaltContainer pwTest (Or.inl (by decide))⟩

/-- C6: once decryption reaches the digest stage, the comparison of the
recomputed digest with the stored digest decides the outcome completely:
equal digests yield the decrypted bytes with no error, unequal digests yield
the HMAC-mismatch error (Go returns the empty string with it — the `err`
outcome carries no decrypted bytes). -/
theorem digest_comparison_decides (C : Crypto) (c : Container) (pw salt enc iv : List Nat)
    (hs : hexDecode c.DeriveInfo.Salt = .ok salt)
    (he : hexDecode c.ContainedData.EncryptedData = .ok enc)
    (hv : hexDecode c.EncryptionInfo.IV = .ok iv)
    (hlen : aesBlockSize ≤ enc.length) :
    (hexEncode (C.sha256 (xorKeyStream (C.keystream (C.pbkdf2Key pw salt c.DeriveInfo.Iters) iv)
        (enc.drop aesBlockSize))) = c.ContainedData.HMAC →
      DecryptContainer C c pw =
        .ok (xorKeyStream (C.keystream (C.pbkdf2Key pw salt c.DeriveInfo.Iters) iv)
          (enc.drop aesBlockSize))) ∧
    (hexEncode (C.sha256 (xorKeyStream (C.keystream (C.pbkdf2Key pw salt c.DeriveInfo.Iters) iv)
        (enc.drop aesBlockSize))) ≠ c.ContainedData.HMAC →
      DecryptContainer C c pw = .err .hmacMismatch) := by
  rw [decryptContainer_eq_digestCheck C c pw salt enc iv hs he hv hlen]
  constructor
  · intro hd
    rw [if_pos hd]
  · intro hd
    rw [if_neg hd]

theorem digest_comparison_decides_witness :
    (DecryptContainer cryptoTest (sealContainer cryptoTest pTest pwTest saltTest ivTest 7)
        pwTest = .ok pTest) ∧
    ((hexEncode (cryptoTest.sha256 (xorKeyStream
          (cryptoTest.keystream (cryptoTest.pbkdf2Key pwTest saltTest
            (sealContainer cryptoTest pTest pwTest saltTest ivTest 7).DeriveInfo.Iters) ivTest)
          ((sealCiphertext cryptoTest pTest pwTest saltTest ivTest 7).drop aesBlockSize))) =
        (sealContainer cryptoTest pTest pwTest saltTest ivTest 7).ContainedData.HMAC →
      DecryptContainer cryptoTest (sealContainer cryptoTest pTest pwTest saltTest ivTest 7)
          pwTest =
        .ok (xorKeyStream
          (cryptoTest.keystream (cryptoTest.pbkdf2Key pwTest saltTest
            (sealContainer cryptoTest pTest pwTest saltTest ivTest 7).DeriveInfo.Iters) ivTest)
          ((sealCiphertext cryptoTest pTest pwTest saltTest ivTest 7).drop aesBlockSize))) ∧
    (hexEncode (cryptoTest.sha256 (xorKeyStream
          (cryptoTest.keystream (cryptoTest.pbkdf2Key pwTest saltTest
            (sealContainer cryptoTest pTest pwTest saltTest ivTest 7).DeriveInfo.Iters) ivTest)
          ((sealCiphertext cryptoTest pTest pwTest saltTest ivTest 7).drop aesBlockSize))) ≠
        (sealContainer cryptoTest pTest pwTest saltTest ivTest 7).ContainedData.HMAC →
      DecryptContainer cryptoTest (sealContainer cryptoTest pTest pwTest saltTest ivTest 7)
          pwTest = .err .hmacMismatch)) :=
  ⟨by decide,
    digest_comparison_decides cryptoTest
      (sealContainer cryptoTest pTest pwTest saltTest ivTest 7) pwTest saltTest
      (sealCiphertext cryptoTest pTest pwTest saltTest ivTest 7) ivTest
      (by decide) (by decide) (by decide) (by decide)⟩

/-- C7: the encrypted payload assembled by seal has length exactly
`aes.BlockSize + len(plaintext)`; its leading `aes.BlockSize` bytes are the
zeros `make` put there, untouched by the cipher stream; and position
`aes.BlockSize + i` holds exactly `plaintext[i] XOR keystream(i)` — the
cipher stream is applied precisely to positions
`[blockSize, blockSize + len(plaintext))`. -/
theorem sealCiphertext_layout (C : Crypto) (p pw salt iv : List Nat) (it : Int) :
    (sealCiphertext C p pw salt iv it).length = aesBlockSize + p.length ∧
    (sealCiphertext C p pw salt iv it).take aesBlockSize =
      List.replicate aesBlockSize 0 ∧
    ∀ i, (sealCiphertext C p pw salt iv it)[aesBlockSize + i]? =
      (p[i]?).map (fun b => b ^^^ C.keystream (C.pbkdf2Key pw salt it) iv i) := by
  refine ⟨sealCiphertext_length C p pw salt iv it, ?_, ?_⟩
  · rw [sealCiphertext_eq, List.take_append_of_le_length (by simp), List.take_replicate]
    congr 1
  · intro i
    rw [sealCiphertext_eq]
    have hrep : aesBlockSize + i = (List.replicate aesBlockSize (0 : Nat)).length + i := by
      simp
    rw [hrep, List.getElem?_append_right (by simp)]
    simp only [List.length_replicate, Nat.add_sub_cancel_left]
    rw [xorKeyStream, xorKeyStreamFrom_getElem?, Nat.zero_add]

/-- C8: the calibrator always returns an integer at least 4096, for every
benchmark elapsed time and every random draw; it consumes no other input and
has no failure path (the `Intn` argument `elapsed + 1` is always positive
since the monotonic-clock elapsed time is non-negative). -/
theorem generateRandomNumber_ge_4096 (elapsed : Nat) (rng : Nat → Nat) :
    4096 ≤ generateRandomNumber elapsed rng := by
  unfold generateRandomNumber
  dsimp only
  split <;> omega

/-- C9: every record produced by a successful seal has version tag "v1.0", a
salt of exactly 24 lowercase-hexadecimal characters (12 bytes), an IV of
exactly 32 lowercase-hexadecimal characters (16 bytes) and a stored digest of
exactly 64 lowercase-hexadecimal characters (the 32-byte digest output). -/
theorem sealContainer_record_shape (C : Crypto) (p pw salt iv : List Nat) (it : Int)
    (hsalt : salt.length = saltLen) (hiv : iv.length = ivLen) :
    CreateContainer C p pw salt iv it = some (sealContainer C p pw salt iv it) ∧
    (sealContainer C p pw salt iv it).ContainerMeta.Version = ['v', '1', '.', '0'] ∧
    (sealContainer C p pw salt iv it).DeriveInfo.Salt.length = 24 ∧
    (∀ ch ∈ (sealContainer C p pw salt iv it).DeriveInfo.Salt, isLowerHexDigit ch) ∧
    (sealContainer C p pw salt iv it).EncryptionInfo.IV.length = 32 ∧
    (∀ ch ∈ (sealContainer C p pw salt iv it).EncryptionInfo.IV, isLowerHexDigit ch) ∧
    (sealContainer C p pw salt iv it).ContainedData.HMAC.length = 64 ∧
    (∀ ch ∈ (sealContainer C p pw salt iv it).ContainedData.HMAC, isLowerHexDigit ch) := by
  refine ⟨createContainer_eq_some C p pw salt iv it, rfl, ?_, ?_, ?_, ?_, ?_, ?_⟩
  · show (hexEncode salt).length = 24
    rw [hexEncode_length, hsalt]
    decide
  · intro ch hch
    exact mem_hexEncode salt ch hch
  · show (hexEncode iv).length = 32
    rw [hexEncode_length, hiv]
    decide
  · intro ch hch
    exact mem_hexEncode iv ch hch
  · show (hexEncode (C.sha256 p)).length = 64
    rw [hexEncode_length, C.sha256_length]
  · intro ch hch
    exact mem_hexEncode _ ch hch

theorem sealContainer_record_shape_witness :
    saltTest.length = saltLen ∧
    (CreateContainer cryptoTest pTest pwTest saltTest ivTest 4096 =
        some (sealContainer cryptoTest pTest pwTest saltTest ivTest 4096) ∧
      (sealContainer cryptoTest pTest pwTest saltTest ivTest 4096).ContainerMeta.Version =
        ['v', '1', '.', '0'] ∧
      (sealContainer cryptoTest pTest pwTest saltTest ivTest 4096).DeriveInfo.Salt.length = 24 ∧
      (∀ ch ∈ (sealContainer cryptoTest pTest pwTest saltTest ivTest 4096).DeriveInfo.Salt,
        isLowerHexDigit ch) ∧
      (sealContainer cryptoTest pTest pwTest saltTest ivTest 4096).EncryptionInfo.IV.length =
        32 ∧
      (∀ ch ∈ (sealContainer cryptoTest pTest pwTest saltTest ivTest 4096).EncryptionInfo.IV,
        isLowerHexDigit ch) ∧
      (sealContainer cryptoTest pTest pwTest saltTest ivTest 4096).ContainedData.HMAC.length =
        64 ∧
      (∀ ch ∈ (sealContainer cryptoTest pTest pwTest saltTest ivTest 4096).ContainedData.HMAC,
        isLowerHexDigit ch)) :=
  ⟨by decide,
    sealContainer_record_shape cryptoTest pTest pwTest saltTest ivTest 4096
      (by decide) (by decide)⟩

/-- C10: `DecryptContainer` never reads the version tag: replacing the
`ContainerMeta.Version` field of any record with any other string leaves both
the returned bytes and the error outcome unchanged. -/
theorem decrypt_ignores_version (C : Crypto) (c : Container) (pw : List Nat) (v : List Char) :
    DecryptContainer C { c with ContainerMeta := { Version := v } } pw =
      DecryptContainer C c pw := rfl

end GoContainer
